import Mathlib

/-!
Shallow embedding of the task-list manager (`src/task_manager.py` and the
rendering-order logic of `src/gui.py`), together with theorems settling the
specification claims about it.

Conventions of the embedding:
* Python strings are `String`; a Python value that may be `None` is an
  `Option`.
* A JSON object read from the backing file is accessed in the source only
  through `data.get(key)` / `data.get(key, default)`, so it is modelled as a
  record of `Option`-valued fields (`TaskDict`); an absent key and an explicit
  JSON `null` are both `none`, exactly as `dict.get` conflates them.
* `uuid.uuid4().hex` (a fresh 32-character hex string, assumed unique and
  nonempty) is modelled by an explicit supply: the manager state carries a
  counter `nextId`, and `genId n` is an injective, never-empty encoding of the
  counter. Only injectivity and nonemptiness of the supply are ever used.
* A raised `ValueError` that the caller observes is modelled by `OpResult.err`;
  state that was already mutated when the exception was raised is returned
  alongside, since the Python `TaskManager` object keeps those mutations.
-/

namespace Jules

/-- Totality of digits of a decimal digit string, used to model how
`datetime.strptime` converts a matched group of digits. -/
def digitsToNat (cs : List Char) : Nat :=
  cs.foldl (fun n c => n * 10 + (c.toNat - 48)) 0

/-- Splits a character list on the dash character, modelling how the format
string "%Y-%m-%d" anchors the regex groups of `_strptime` between literal
dashes. -/
def splitOnDash : List Char → List (List Char)
  | [] => [[]]
  | c :: rest =>
    if c = '-' then [] :: splitOnDash rest
    else
      match splitOnDash rest with
      | [] => [[c]]
      | g :: gs => (c :: g) :: gs

/-- Gregorian leap-year test, as `datetime` uses for day-of-month validation. -/
def isLeap (y : Nat) : Bool := y % 4 = 0 && (y % 100 ≠ 0 || y % 400 = 0)

/-- Number of days in a month, as `datetime.__new__` validates the day. -/
def daysInMonth (y m : Nat) : Nat :=
  if m = 2 then (if isLeap y then 29 else 28)
  else if m = 4 || m = 6 || m = 9 || m = 11 then 30
  else 31

/-- Models `datetime.strptime(s, "%Y-%m-%d")`: CPython's `_strptime` matches
`%Y` as exactly four digits, `%m` as one or two digits with value 1..12, `%d`
as one or two digits with value 1..31, the dashes literally, with the whole
string consumed; then `datetime(year, month, day)` additionally requires
`1 <= year` and `day <= daysInMonth`. Returns `some (y, m, d)` on success and
`none` where Python raises `ValueError`. -/
def parseYmd (s : String) : Option (Nat × Nat × Nat) :=
  match splitOnDash s.data with
  | [ys, ms, ds] =>
    if ys.length = 4 && ys.all Char.isDigit &&
       (ms.length = 1 || ms.length = 2) && ms.all Char.isDigit &&
       (ds.length = 1 || ds.length = 2) && ds.all Char.isDigit then
      let y := digitsToNat ys
      let m := digitsToNat ms
      let d := digitsToNat ds
      if 1 ≤ y && 1 ≤ m && m ≤ 12 && 1 ≤ d && d ≤ daysInMonth y m then
        some (y, m, d)
      else none
    else none
  | _ => none

/-- Models `TaskManager._validate_due_date`: succeeds exactly when
`datetime.strptime(due_date, "%Y-%m-%d")` does not raise. -/
def validDueDate (due_date : String) : Bool := (parseYmd due_date).isSome

/-- Models `VALID_PRIORITIES = ["High", "Medium", "Low"]`. -/
def VALID_PRIORITIES : List String := ["High", "Medium", "Low"]

/-- Models `TaskManager._validate_priority`: `priority in VALID_PRIORITIES`. -/
def validPriority (priority : String) : Bool := VALID_PRIORITIES.contains priority

/-- The `ValueError` message of `_validate_due_date`. -/
def dueDateErrMsg : String := "Due date must be in YYYY-MM-DD format."

/-- The `ValueError` message of `_validate_priority`. -/
def priorityErrMsg : String := "Priority must be one of High, Medium, Low."

/-- A `Task` object (`class Task` in `src/task_manager.py`). `__init__` always
stores a string id; `due_date` is `Option String` because `Task.from_dict`
passes `data.get("due_date")`, which is `None` when the key is absent. -/
structure Task where
  id : String
  title : String
  description : String
  priority : String
  due_date : Option String
  completed : Bool
deriving DecidableEq, Repr

/-- A JSON object holding (some of) a task's fields, as the source reads it
via `data.get`. Every field may be absent. -/
structure TaskDict where
  id : Option String
  title : Option String
  description : Option String
  priority : Option String
  due_date : Option String
  completed : Option Bool
deriving DecidableEq, Repr

/-- Models `uuid.uuid4().hex` as an explicit supply of identifiers indexed by
the manager's counter. The concrete spelling is irrelevant: the development
only uses that the supply is injective and never produces the empty string,
which are the two facts the real 32-character random hex string provides. -/
def genId (n : Nat) : String := String.mk ('u' :: List.replicate n 'x')

/-- Models `Task.__init__`. The Python parameter `id` defaults to `None`, and
`self.id = id if id else uuid.uuid4().hex` keeps the given id exactly when it
is truthy, i.e. neither `None` nor the empty string; otherwise a fresh uuid
(the supplied `fresh`) is used. -/
def Task.init (title description priority : String) (due_date : Option String)
    (completed : Bool) (id : Option String) (fresh : String) : Task :=
  { id := match id with
      | some s => if s = "" then fresh else s
      | none => fresh
    title := title
    description := description
    priority := priority
    due_date := due_date
    completed := completed }

/-- Models `Task.to_dict`: emits all six fields ( `due_date` may be `None`,
serialized as JSON `null`). -/
def Task.to_dict (t : Task) : TaskDict :=
  { id := some t.id
    title := some t.title
    description := some t.description
    priority := some t.priority
    due_date := t.due_date
    completed := some t.completed }

/-- Models `Task.from_dict`: `data.get` with the defaults of the source
(`title` and `description` default to the empty string, `priority` to
"Medium", `completed` to `False`; `id` and `due_date` have no default).
`fresh` is the uuid consumed if `__init__` needs one. -/
def Task.from_dict (data : TaskDict) (fresh : String) : Task :=
  Task.init (data.title.getD "") (data.description.getD "")
    (data.priority.getD "Medium") data.due_date (data.completed.getD false)
    data.id fresh

/-- The backing JSON document, as `_load_tasks` discriminates it: the file may
be absent (`FileNotFoundError`), present but not parseable as JSON
(`json.JSONDecodeError`; an empty file is in this class), or a parseable JSON
array of objects. -/
inductive Doc where
  | absent
  | malformed
  | valid (records : List TaskDict)
deriving DecidableEq, Repr

/-- Result of an operation that can raise a `ValueError` observed by the
caller. -/
inductive OpResult (α : Type) where
  | ok (val : α)
  | err (msg : String)
deriving DecidableEq, Repr

def OpResult.isOk : OpResult α → Bool
  | .ok _ => true
  | .err _ => false

def OpResult.isErr : OpResult α → Bool
  | .ok _ => false
  | .err _ => true

/-- The `TaskManager` state: the in-memory list, the backing document the
file at `self.filepath` currently holds, and the uuid-supply counter. -/
structure TaskManager where
  tasks : List Task
  doc : Doc
  nextId : Nat
deriving DecidableEq, Repr

/-- Models `TaskManager._save_tasks`. The source opens the file with
`open(self.filepath, 'w', encoding='utf-f')`: `'w'` creates/truncates the
file first, then the text-layer lookup of the unknown encoding `'utf-f'`
raises `LookupError`, which the `except Exception` arm catches and prints.
Net observable effect: nothing is written and the file is left present but
empty — an empty file is not valid JSON, hence `Doc.malformed`. -/
def TaskManager.save_tasks (tm : TaskManager) : TaskManager :=
  { tm with doc := Doc.malformed }

/-- Deserializes a loaded JSON array in order, threading the uuid supply
(one fresh uuid is reserved per record; `__init__` uses it only when the
record's id is missing or empty). Models the list comprehension in
`_load_tasks`. -/
def fromDictList : List TaskDict → Nat → List Task × Nat
  | [], n => ([], n)
  | d :: ds, n =>
    let t := Task.from_dict d (genId n)
    let (ts, n2) := fromDictList ds (n + 1)
    (t :: ts, n2)

/-- Models `TaskManager._load_tasks`: absent file yields the empty list
(`FileNotFoundError` arm); malformed JSON prints a warning and yields the
empty list (`json.JSONDecodeError` arm); a valid array is deserialized
element-wise with `Task.from_dict`. -/
def TaskManager.load_tasks (tm : TaskManager) : TaskManager :=
  match tm.doc with
  | Doc.absent => { tm with tasks := [] }
  | Doc.malformed => { tm with tasks := [] }
  | Doc.valid records =>
    let (ts, n2) := fromDictList records tm.nextId
    { tm with tasks := ts, nextId := n2 }

/-- Models `TaskManager.__init__`: starts with an empty list and immediately
calls `_load_tasks` on the backing document. -/
def TaskManager.init (doc : Doc) (nextId : Nat) : TaskManager :=
  TaskManager.load_tasks { tasks := [], doc := doc, nextId := nextId }

/-- Models `TaskManager.get_task`: linear scan returning the first task whose
id matches, else `None`. -/
def TaskManager.get_task (tm : TaskManager) (task_id : String) : Option Task :=
  tm.tasks.find? (fun t => t.id = task_id)

/-- Models `TaskManager.add_task`: validates the due date, then the priority
(in that source order), raising on failure with the manager unchanged; on
success constructs the task with a fresh id and `completed=False`, appends it
and saves. -/
def TaskManager.add_task (tm : TaskManager)
    (title description priority due_date : String) :
    OpResult Task × TaskManager :=
  if validDueDate due_date = false then (OpResult.err dueDateErrMsg, tm)
  else if validPriority priority = false then (OpResult.err priorityErrMsg, tm)
  else
    let new_task := Task.init title description priority (some due_date)
      false none (genId tm.nextId)
    let tm2 := { tm with tasks := tm.tasks ++ [new_task], nextId := tm.nextId + 1 }
    (OpResult.ok new_task, tm2.save_tasks)

/-- Replaces the first element satisfying `p` by its image under `f`; models
the source pattern of looking a task up with `get_task` and mutating the
aliased object in place. -/
def updateFirst (p : α → Bool) (f : α → α) : List α → List α
  | [] => []
  | a :: rest => if p a then f a :: rest else a :: updateFirst p f rest

/-- Removes the first element satisfying `p`; models
`self.tasks.remove(task_to_delete)` where `task_to_delete` is the first task
with the matching id (Python `list.remove` removes the first `==`-equal
element, and default object equality is identity). -/
def eraseFirst (p : α → Bool) : List α → List α
  | [] => []
  | a :: rest => if p a then rest else a :: eraseFirst p rest

/-- Models `TaskManager.edit_task`, keeping the source's sequential order:
title and description are assigned first, then priority is validated and
assigned, then due date is validated and assigned, then completion; a failed
validation raises with the assignments made so far kept (they were mutations
of the live object) and without saving. Saves when at least one field was
supplied; returns `True` whenever the task was found. -/
def TaskManager.edit_task (tm : TaskManager) (task_id : String)
    (title description priority due_date : Option String)
    (completed : Option Bool) : OpResult Bool × TaskManager :=
  match tm.get_task task_id with
  | none => (OpResult.ok false, tm)
  | some _ =>
    let assign := fun (f : Task → Task) (m : TaskManager) =>
      { m with tasks := updateFirst (fun t => t.id = task_id) f m.tasks }
    let m := tm
    let m := match title with
      | some v => assign (fun t => { t with title := v }) m
      | none => m
    let m := match description with
      | some v => assign (fun t => { t with description := v }) m
      | none => m
    if priority.all validPriority = false then (OpResult.err priorityErrMsg, m)
    else
    let m := match priority with
      | some v => assign (fun t => { t with priority := v }) m
      | none => m
    if due_date.all validDueDate = false then (OpResult.err dueDateErrMsg, m)
    else
    let m := match due_date with
      | some v => assign (fun t => { t with due_date := some v }) m
      | none => m
    let m := match completed with
      | some v => assign (fun t => { t with completed := v }) m
      | none => m
    let changes_made := title.isSome || description.isSome || priority.isSome
      || due_date.isSome || completed.isSome
    (OpResult.ok true, if changes_made then m.save_tasks else m)

/-- Models `TaskManager.delete_task`. -/
def TaskManager.delete_task (tm : TaskManager) (task_id : String) :
    Bool × TaskManager :=
  match tm.get_task task_id with
  | some _ =>
    (true, TaskManager.save_tasks
      { tm with tasks := eraseFirst (fun t => t.id = task_id) tm.tasks })
  | none => (false, tm)

/-- Flips the completion flag, as `task.completed = not task.completed`. -/
def flipCompleted (t : Task) : Task := { t with completed := !t.completed }

/-- Models `TaskManager.toggle_complete`. -/
def TaskManager.toggle_complete (tm : TaskManager) (task_id : String) :
    Bool × TaskManager :=
  match tm.get_task task_id with
  | some _ =>
    (true, TaskManager.save_tasks
      { tm with tasks := updateFirst (fun t => t.id = task_id) flipCompleted tm.tasks })
  | none => (false, tm)

/-- Models `TaskManager.get_all_tasks` (a shallow copy of the list; list
identity is irrelevant in the embedding). -/
def TaskManager.get_all_tasks (tm : TaskManager) : List Task := tm.tasks

/-- Models `TaskManager.clear_all_tasks`. -/
def TaskManager.clear_all_tasks (tm : TaskManager) : TaskManager :=
  TaskManager.save_tasks { tm with tasks := [] }

/-! Presentation-layer ordering, from `_refresh_task_list` in `src/gui.py`. -/

/-- Models `priority_map.get(t.priority, len(VALID_PRIORITIES))` where
`priority_map = {p: i for i, p in enumerate(VALID_PRIORITIES)}`:
High=0, Medium=1, Low=2, anything else 3. -/
def priorityRank (p : String) : Nat :=
  if p = "High" then 0 else if p = "Medium" then 1 else if p = "Low" then 2 else 3

/-- Chronological encoding of a parsed date; comparison of `datetime` values
is chronological, and for valid dates (month below 100, day below 100) this
numeric encoding has the same order. -/
def dateNat (ymd : Nat × Nat × Nat) : Nat := ymd.1 * 10000 + ymd.2.1 * 100 + ymd.2.2

/-- The two ways key computation in the first `tasks.sort` can fail:
`strptime(None, ...)` raises `TypeError` (not caught by the `except
ValueError` arm, so it escapes), a malformed date string raises `ValueError`
(caught, triggering the priority-only fallback sort). -/
inductive SortError where
  | typeError
  | valueError
deriving DecidableEq, Repr

/-- The first exception raised while Python computes the sort keys in list
order, if any: `list.sort(key=...)` evaluates the key of every element before
reordering, and an exception there leaves the list unchanged. -/
def firstSortError : List Task → Option SortError
  | [] => none
  | t :: rest =>
    match t.due_date with
    | none => some SortError.typeError
    | some s =>
      if (parseYmd s).isSome then firstSortError rest
      else some SortError.valueError

/-- The sort key `(strptime(t.due_date), priority_map.get(t.priority, 3))` of
the primary sort, encoded in `Nat × Nat`. The fallback value 0 for an
unparseable date is never consulted: the primary sort runs only when every
date parsed. -/
def taskSortKey (t : Task) : Nat × Nat :=
  match t.due_date with
  | some s =>
    match parseYmd s with
    | some ymd => (dateNat ymd, priorityRank t.priority)
    | none => (0, priorityRank t.priority)
  | none => (0, priorityRank t.priority)

/-- Lexicographic comparison of key pairs, as Python compares key tuples. -/
def lexLe (a b : Nat × Nat) : Bool :=
  Nat.blt a.1 b.1 || (Nat.beq a.1 b.1 && Nat.ble a.2 b.2)

/-- Ordering used by the primary sort of `_refresh_task_list`. -/
def dateLe (a b : Task) : Bool := lexLe (taskSortKey a) (taskSortKey b)

/-- Ordering used by the fallback priority-only sort. -/
def rankLe (a b : Task) : Bool :=
  Nat.ble (priorityRank a.priority) (priorityRank b.priority)

/-- Models the ordering step of `gui.TaskManagerGUI._refresh_task_list`:
sort by `(parsed due date, priority rank)`; if computing those keys raises
`ValueError` (malformed date string) the list is left unchanged by the failed
sort and is re-sorted by priority rank alone; if it raises `TypeError`
(a `None` due date) the exception escapes the method — modelled as `none`.
Python `list.sort` is stable, as is `List.mergeSort`, and both orders are
total preorders, so the embedded result is the rendered order. -/
def refreshOrder (ts : List Task) : Option (List Task) :=
  match firstSortError ts with
  | some SortError.typeError => none
  | some SortError.valueError => some (ts.mergeSort rankLe)
  | none => some (ts.mergeSort dateLe)

/-! Invariants and reachability of the store. -/

/-- Well-formedness of a single record: priority drawn from
`VALID_PRIORITIES` and a present, syntactically valid due date. -/
def TaskOk (t : Task) : Prop :=
  validPriority t.priority = true ∧
  ∃ s, t.due_date = some s ∧ validDueDate s = true

/-- Invariant of the store state: every live id comes from the uuid supply
below the counter, ids are pairwise distinct, every record is well-formed,
and the backing document is absent or malformed (the save bug makes a valid
saved document unreachable). -/
def Inv (tm : TaskManager) : Prop :=
  (∀ i ∈ tm.tasks.map Task.id, ∃ k, k < tm.nextId ∧ i = genId k) ∧
  (tm.tasks.map Task.id).Nodup ∧
  (∀ t ∈ tm.tasks, TaskOk t) ∧
  (tm.doc = Doc.absent ∨ tm.doc = Doc.malformed)

/-- The states reachable from a fresh store (constructed over an absent
backing file) by any sequence of the public operations; each constructor
keeps the state an operation leaves behind, whether it succeeded or raised. -/
inductive Reachable : TaskManager → Prop where
  | init : Reachable (TaskManager.init Doc.absent 0)
  | load (tm : TaskManager) : Reachable tm → Reachable tm.load_tasks
  | add (tm : TaskManager) (title descr p dd : String) :
      Reachable tm → Reachable (tm.add_task title descr p dd).2
  | edit (tm : TaskManager) (i : String) (title descr p dd : Option String)
      (c : Option Bool) :
      Reachable tm → Reachable (tm.edit_task i title descr p dd c).2
  | del (tm : TaskManager) (i : String) :
      Reachable tm → Reachable (tm.delete_task i).2
  | toggle (tm : TaskManager) (i : String) :
      Reachable tm → Reachable (tm.toggle_complete i).2
  | clear (tm : TaskManager) : Reachable tm → Reachable tm.clear_all_tasks

/-- Applies an optional field assignment: the identity when the field was not
supplied. Used to state the behaviour of `edit_task` uniformly over the
supplied/omitted cases. -/
def applyOpt {β : Type} (o : Option β) (set : β → Task → Task) (t : Task) : Task :=
  match o with
  | some v => set v t
  | none => t

/-! Concrete fixtures used in counterexamples and witnesses. -/

/-- A concrete well-formed task. -/
def sampleTask : Task :=
  { id := "id1", title := "old", description := "d", priority := "Medium",
    due_date := some "2024-03-15", completed := false }

/-- A concrete store holding `sampleTask`. -/
def sampleManager : TaskManager :=
  { tasks := [sampleTask], doc := Doc.absent, nextId := 0 }

/-- A task whose id is the empty string (falsy in Python). -/
def emptyIdTask : Task :=
  { id := "", title := "a", description := "b", priority := "Low",
    due_date := some "2024-01-02", completed := true }

/-- First task of the rendering scenario of the spec. -/
def buyMilk : Task :=
  { id := "b", title := "Buy milk", description := "", priority := "Medium",
    due_date := some "2025-01-10", completed := false }

/-- Second task of the rendering scenario of the spec. -/
def fileTaxes : Task :=
  { id := "f", title := "File taxes", description := "", priority := "High",
    due_date := some "2025-01-05", completed := false }

example : validDueDate "2024-03-15" = true := by decide
example : validDueDate "2024-13-40" = false := by decide
example : validDueDate "2024-02-29" = true := by decide
example : validDueDate "2023-02-29" = false := by decide
example : validDueDate "2024-3-5" = true := by decide
example : validDueDate "99-1-1" = false := by decide
example : validDueDate "0000-01-01" = false := by decide
example : validDueDate "2024-03-15x" = false := by decide

/-! Auxiliary lemmas about the primitives of the embedding. -/

theorem genId_injective : Function.Injective genId := by
  intro a b h
  have hd : ('u' :: List.replicate a 'x') = ('u' :: List.replicate b 'x') :=
    congrArg String.data h
  have hlen := congrArg List.length hd
  simpa using hlen

theorem genId_ne_empty (n : Nat) : genId n ≠ "" := by
  intro h
  have hd : ('u' :: List.replicate n 'x') = ([] : List Char) :=
    congrArg String.data h
  exact List.cons_ne_nil _ _ hd

theorem find?_updateFirst (p : α → Bool) (f : α → α)
    (hf : ∀ a, p (f a) = p a) :
    ∀ l : List α, (updateFirst p f l).find? p = (l.find? p).map f := by
  intro l
  induction l with
  | nil => rfl
  | cons a rest ih =>
    by_cases h : p a = true
    · simp [updateFirst, h, List.find?_cons_of_pos, hf]
    · have h' : p a = false := by simpa using h
      simp [updateFirst, h', List.find?_cons_of_neg, ih]

theorem find?_updateFirst_ne (p q : α → Bool) (f : α → α)
    (hq : ∀ a, q (f a) = q a) :
    ∀ l : List α, (updateFirst p f l).find? q = (l.find? q).map f ∨
      (updateFirst p f l).find? q = l.find? q := by
  intro l
  induction l with
  | nil => exact Or.inr rfl
  | cons a rest ih =>
    by_cases hp : p a = true
    · by_cases hqa : q a = true
      · left
        simp [updateFirst, hp, List.find?_cons_of_pos, hq, hqa]
      · have h' : q a = false := by simpa using hqa
        by_cases hqf : q (f a) = true
        · rw [hq] at hqf
          simp [h'] at hqf
        · have h'' : q (f a) = false := by simpa using hqf
          right
          simp [updateFirst, hp, List.find?_cons_of_neg, h', h'']
    · have hp' : p a = false := by simpa using hp
      by_cases hqa : q a = true
      · right
        simp [updateFirst, hp', List.find?_cons_of_pos, hqa]
      · have h' : q a = false := by simpa using hqa
        rcases ih with ih | ih
        · left
          simp [updateFirst, hp', List.find?_cons_of_neg, h', ih]
        · right
          simp [updateFirst, hp', List.find?_cons_of_neg, h', ih]

theorem flipCompleted_flipCompleted (t : Task) :
    flipCompleted (flipCompleted t) = t := by
  cases t
  simp [flipCompleted]

theorem updateFirst_flip_flip (p : Task → Bool)
    (hp : ∀ t, p (flipCompleted t) = p t) :
    ∀ l : List Task,
      updateFirst p flipCompleted (updateFirst p flipCompleted l) = l := by
  intro l
  induction l with
  | nil => rfl
  | cons a rest ih =>
    by_cases h : p a = true
    · simp [updateFirst, h, hp, flipCompleted_flipCompleted]
    · have h' : p a = false := by simpa using h
      simp [updateFirst, h', ih]

theorem map_updateFirst (p : α → Bool) (f : α → α) (g : α → β)
    (hg : ∀ a, g (f a) = g a) :
    ∀ l : List α, (updateFirst p f l).map g = l.map g := by
  intro l
  induction l with
  | nil => rfl
  | cons a rest ih =>
    by_cases h : p a = true
    · simp [updateFirst, h, hg]
    · have h' : p a = false := by simpa using h
      simp [updateFirst, h', ih]

theorem mem_updateFirst (p : α → Bool) (f : α → α) :
    ∀ l : List α, ∀ t ∈ updateFirst p f l, t ∈ l ∨ ∃ u, u ∈ l ∧ t = f u := by
  intro l
  induction l with
  | nil => intro t h; exact absurd h (by simp [updateFirst])
  | cons a rest ih =>
    intro t h
    rw [updateFirst] at h
    by_cases hp : p a = true
    · rw [if_pos hp] at h
      rcases List.mem_cons.mp h with h | h
      · exact Or.inr ⟨a, List.mem_cons_self a rest, h⟩
      · exact Or.inl (List.mem_cons_of_mem a h)
    · rw [if_neg hp] at h
      rcases List.mem_cons.mp h with h | h
      · exact Or.inl (h ▸ List.mem_cons_self a rest)
      · rcases ih t h with h' | ⟨u, hu, h2⟩
        · exact Or.inl (List.mem_cons_of_mem a h')
        · exact Or.inr ⟨u, List.mem_cons_of_mem a hu, h2⟩

theorem eraseFirst_sublist (p : α → Bool) :
    ∀ l : List α, (eraseFirst p l).Sublist l := by
  intro l
  induction l with
  | nil => exact List.Sublist.refl _
  | cons a rest ih =>
    by_cases h : p a = true
    · simp only [eraseFirst, h, if_pos]
      exact (List.Sublist.refl rest).cons a
    · have h' : p a = false := by simpa using h
      simp only [eraseFirst, h', Bool.false_eq_true, if_neg, not_false_iff]
      exact ih.cons₂ a

theorem updateFirst_id (p : α → Bool) :
    ∀ l : List α, updateFirst p (fun a => a) l = l := by
  intro l
  induction l with
  | nil => rfl
  | cons a rest ih =>
    by_cases h : p a = true
    · simp [updateFirst, h]
    · have h' : p a = false := by simpa using h
      simp [updateFirst, h', ih]

theorem updateFirst_applyOpt_none {β : Type} (p : Task → Bool)
    (set : β → Task → Task) (l : List Task) :
    updateFirst p (applyOpt (none : Option β) set) l = l :=
  updateFirst_id p l

theorem applyOpt_some {β : Type} (v : β) (set : β → Task → Task) :
    applyOpt (some v) set = set v := rfl

theorem get_task_update (m : TaskManager) (task_id : String) (f : Task → Task)
    (hf : ∀ a : Task, (f a).id = a.id) (x : Task)
    (hx : m.tasks.find? (fun t => t.id = task_id) = some x) :
    TaskManager.get_task
      { m with tasks := updateFirst (fun t => t.id = task_id) f m.tasks } task_id
      = some (f x) := by
  show (updateFirst (fun t : Task => t.id = task_id) f m.tasks).find?
      (fun t => t.id = task_id) = some (f x)
  rw [find?_updateFirst _ f
    (fun a => by show decide ((f a).id = task_id) = decide (a.id = task_id); rw [hf a])
    m.tasks, hx]
  rfl

/-! Preservation of the store invariant by every operation. -/

theorem inv_set_doc (tasks0 : List Task) (doc0 : Doc) (n : Nat)
    (h : Inv { tasks := tasks0, doc := doc0, nextId := n }) :
    Inv { tasks := tasks0, doc := Doc.malformed, nextId := n } :=
  ⟨h.1, h.2.1, h.2.2.1, Or.inr rfl⟩

theorem inv_peel (tasks0 : List Task) (doc0 : Doc) (n : Nat)
    (pred : Task → Bool) (f : Task → Task)
    (hid : ∀ t : Task, (f t).id = t.id)
    (hok : ∀ t : Task, TaskOk t → TaskOk (f t))
    (h : Inv { tasks := tasks0, doc := doc0, nextId := n }) :
    Inv { tasks := updateFirst pred f tasks0, doc := doc0, nextId := n } := by
  obtain ⟨h1, h2, h3, h4⟩ := h
  have hmap : (updateFirst pred f tasks0).map Task.id = tasks0.map Task.id :=
    map_updateFirst pred f Task.id hid tasks0
  refine ⟨?_, ?_, ?_, h4⟩
  · intro i hi
    rw [hmap] at hi
    exact h1 i hi
  · rw [hmap]
    exact h2
  · intro t ht
    rcases mem_updateFirst pred f tasks0 t ht with h' | ⟨u, hu, heq⟩
    · exact h3 t h'
    · rw [heq]
      exact hok u (h3 u hu)

theorem inv_erase (tasks0 : List Task) (doc0 : Doc) (n : Nat)
    (pred : Task → Bool)
    (h : Inv { tasks := tasks0, doc := doc0, nextId := n }) :
    Inv { tasks := eraseFirst pred tasks0, doc := doc0, nextId := n } := by
  obtain ⟨h1, h2, h3, h4⟩ := h
  have hsub := eraseFirst_sublist pred tasks0
  refine ⟨?_, h2.sublist (hsub.map Task.id), ?_, h4⟩
  · intro i hi
    exact h1 i ((hsub.map Task.id).subset hi)
  · intro t ht
    exact h3 t (hsub.subset ht)

theorem inv_init_state : Inv (TaskManager.init Doc.absent 0) := by
  refine ⟨?_, ?_, ?_, Or.inl rfl⟩ <;>
    simp [TaskManager.init, TaskManager.load_tasks]

theorem inv_load (tm : TaskManager) (h : Inv tm) : Inv tm.load_tasks := by
  rcases h.2.2.2 with hd | hd
  · unfold TaskManager.load_tasks
    rw [hd]
    exact ⟨by simp, by simp, by simp, Or.inl rfl⟩
  · unfold TaskManager.load_tasks
    rw [hd]
    exact ⟨by simp, by simp, by simp, Or.inr rfl⟩

theorem inv_add (tm : TaskManager) (title descr p dd : String)
    (h : Inv tm) : Inv (tm.add_task title descr p dd).2 := by
  obtain ⟨h1, h2, h3, h4⟩ := h
  cases hvd : validDueDate dd with
  | false =>
    simp only [TaskManager.add_task, hvd]
    exact ⟨h1, h2, h3, h4⟩
  | true =>
    cases hvp : validPriority p with
    | false =>
      simp only [TaskManager.add_task, hvd, hvp]
      exact ⟨h1, h2, h3, h4⟩
    | true =>
      have heq : tm.add_task title descr p dd =
          (OpResult.ok (Task.init title descr p (some dd) false none (genId tm.nextId)),
           { tasks := (tm.tasks ++
               [Task.init title descr p (some dd) false none (genId tm.nextId)]),
             doc := Doc.malformed, nextId := tm.nextId + 1 }) := by
        unfold TaskManager.add_task
        simp [hvd, hvp, TaskManager.save_tasks]
      rw [heq]
      refine ⟨?_, ?_, ?_, Or.inr rfl⟩
      · intro i hi
        rw [List.map_append] at hi
        rcases List.mem_append.mp hi with hi | hi
        · obtain ⟨k, hk, hke⟩ := h1 i hi
          exact ⟨k, Nat.lt_succ_of_lt hk, hke⟩
        · refine ⟨tm.nextId, Nat.lt_succ_self _, ?_⟩
          simpa [Task.init] using hi
      · rw [List.map_append]
        refine h2.append (List.nodup_singleton _) ?_
        intro a ha hb
        simp only [List.map_cons, List.map_nil, List.mem_singleton] at hb
        obtain ⟨k, hk, hke⟩ := h1 a ha
        rw [hb] at hke
        have : (Task.init title descr p (some dd) false none (genId tm.nextId)).id
            = genId tm.nextId := rfl
        rw [this] at hke
        exact absurd (genId_injective hke) (Nat.ne_of_gt hk)
      · intro t ht
        rcases List.mem_append.mp ht with ht | ht
        · exact h3 t ht
        · rw [List.mem_singleton.mp ht]
          exact ⟨hvp, dd, rfl, hvd⟩

theorem inv_clear (tm : TaskManager) : Inv tm.clear_all_tasks :=
  ⟨by simp [TaskManager.clear_all_tasks, TaskManager.save_tasks],
   by simp [TaskManager.clear_all_tasks, TaskManager.save_tasks],
   by simp [TaskManager.clear_all_tasks, TaskManager.save_tasks],
   Or.inr rfl⟩

theorem inv_toggle (tm : TaskManager) (i : String) (h : Inv tm) :
    Inv (tm.toggle_complete i).2 := by
  unfold TaskManager.toggle_complete
  cases hg : tm.get_task i with
  | none => exact h
  | some t0 =>
    show Inv (TaskManager.save_tasks
      { tm with tasks := updateFirst (fun t => t.id = i) flipCompleted tm.tasks })
    exact inv_set_doc _ _ _
      (inv_peel tm.tasks tm.doc tm.nextId _ flipCompleted (fun t => rfl)
        (fun t ht => ht) h)

theorem inv_delete (tm : TaskManager) (i : String) (h : Inv tm) :
    Inv (tm.delete_task i).2 := by
  unfold TaskManager.delete_task
  cases hg : tm.get_task i with
  | none => exact h
  | some t0 =>
    show Inv (TaskManager.save_tasks
      { tm with tasks := eraseFirst (fun t => t.id = i) tm.tasks })
    exact inv_set_doc _ _ _ (inv_erase tm.tasks tm.doc tm.nextId _ h)

theorem inv_edit (tm : TaskManager) (i : String)
    (title descr p dd : Option String) (c : Option Bool) (h : Inv tm) :
    Inv (tm.edit_task i title descr p dd c).2 := by
  cases hg : tm.get_task i with
  | none =>
    unfold TaskManager.edit_task
    rw [hg]
    exact h
  | some orig =>
    have hidT : ∀ a : Task,
        ((applyOpt title (fun v t => { t with title := v })) a).id = a.id := by
      intro a; cases title <;> rfl
    have hidD : ∀ a : Task,
        ((applyOpt descr (fun v t => { t with description := v })) a).id = a.id := by
      intro a; cases descr <;> rfl
    have hidP : ∀ a : Task,
        ((applyOpt p (fun v t => { t with priority := v })) a).id = a.id := by
      intro a; cases p <;> rfl
    have hidDD : ∀ a : Task,
        ((applyOpt dd (fun v t => { t with due_date := some v })) a).id = a.id := by
      intro a; cases dd <;> rfl
    have hidC : ∀ a : Task,
        ((applyOpt c (fun v t => { t with completed := v })) a).id = a.id := by
      intro a; cases c <;> rfl
    have hokT : ∀ t : Task, TaskOk t →
        TaskOk (applyOpt title (fun v t => { t with title := v }) t) := by
      intro t ht; cases title <;> exact ht
    have hokD : ∀ t : Task, TaskOk t →
        TaskOk (applyOpt descr (fun v t => { t with description := v }) t) := by
      intro t ht; cases descr <;> exact ht
    have hokC : ∀ t : Task, TaskOk t →
        TaskOk (applyOpt c (fun v t => { t with completed := v }) t) := by
      intro t ht; cases c <;> exact ht
    by_cases hpall : p.all validPriority = true
    · have hokP : ∀ t : Task, TaskOk t →
          TaskOk (applyOpt p (fun v t => { t with priority := v }) t) := by
        intro t ht
        cases p with
        | none => exact ht
        | some pv => exact ⟨hpall, ht.2⟩
      by_cases hddall : dd.all validDueDate = true
      · have hokDD : ∀ t : Task, TaskOk t →
            TaskOk (applyOpt dd (fun v t => { t with due_date := some v }) t) := by
          intro t ht
          cases dd with
          | none => exact ht
          | some dv => exact ⟨ht.1, dv, rfl, hddall⟩
        have hred : tm.edit_task i title descr p dd c =
            (OpResult.ok true,
             if (title.isSome || descr.isSome || p.isSome || dd.isSome || c.isSome)
             then TaskManager.save_tasks
               { tm with tasks :=
                   (updateFirst (fun t => t.id = i)
                     (applyOpt c (fun v t => { t with completed := v }))
                     (updateFirst (fun t => t.id = i)
                       (applyOpt dd (fun v t => { t with due_date := some v }))
                       (updateFirst (fun t => t.id = i)
                         (applyOpt p (fun v t => { t with priority := v }))
                         (updateFirst (fun t => t.id = i)
                           (applyOpt descr (fun v t => { t with description := v }))
                           (updateFirst (fun t => t.id = i)
                             (applyOpt title (fun v t => { t with title := v }))
                             tm.tasks))))) }
             else
               { tm with tasks :=
                   (updateFirst (fun t => t.id = i)
                     (applyOpt c (fun v t => { t with completed := v }))
                     (updateFirst (fun t => t.id = i)
                       (applyOpt dd (fun v t => { t with due_date := some v }))
                       (updateFirst (fun t => t.id = i)
                         (applyOpt p (fun v t => { t with priority := v }))
                         (updateFirst (fun t => t.id = i)
                           (applyOpt descr (fun v t => { t with description := v }))
                           (updateFirst (fun t => t.id = i)
                             (applyOpt title (fun v t => { t with title := v }))
                             tm.tasks))))) }) := by
          unfold TaskManager.edit_task
          rw [hg]
          cases title <;> cases descr <;> cases p <;> cases dd <;> cases c <;>
            simp_all [applyOpt_some, updateFirst_applyOpt_none, TaskManager.save_tasks]
        have hS5 : Inv
            { tasks :=
                (updateFirst (fun t => t.id = i)
                  (applyOpt c (fun v t => { t with completed := v }))
                  (updateFirst (fun t => t.id = i)
                    (applyOpt dd (fun v t => { t with due_date := some v }))
                    (updateFirst (fun t => t.id = i)
                      (applyOpt p (fun v t => { t with priority := v }))
                      (updateFirst (fun t => t.id = i)
                        (applyOpt descr (fun v t => { t with description := v }))
                        (updateFirst (fun t => t.id = i)
                          (applyOpt title (fun v t => { t with title := v }))
                          tm.tasks))))),
              doc := tm.doc, nextId := tm.nextId } :=
          inv_peel _ _ _ _ _ hidC hokC
            (inv_peel _ _ _ _ _ hidDD hokDD
              (inv_peel _ _ _ _ _ hidP hokP
                (inv_peel _ _ _ _ _ hidD hokD
                  (inv_peel _ _ _ _ _ hidT hokT h))))
        rw [hred]
        by_cases hb : (title.isSome || descr.isSome || p.isSome || dd.isSome
            || c.isSome) = true
        · rw [if_pos hb]
          exact inv_set_doc _ _ _ hS5
        · rw [if_neg hb]
          exact hS5
      · have hddf : dd.all validDueDate = false := by
          cases hx : dd.all validDueDate with
          | false => rfl
          | true => exact absurd hx hddall
        have hred : tm.edit_task i title descr p dd c =
            (OpResult.err dueDateErrMsg,
             { tm with tasks :=
                 (updateFirst (fun t => t.id = i)
                   (applyOpt p (fun v t => { t with priority := v }))
                   (updateFirst (fun t => t.id = i)
                     (applyOpt descr (fun v t => { t with description := v }))
                     (updateFirst (fun t => t.id = i)
                       (applyOpt title (fun v t => { t with title := v }))
                       tm.tasks))) }) := by
          unfold TaskManager.edit_task
          rw [hg]
          cases title <;> cases descr <;> cases p <;>
            simp_all [applyOpt_some, updateFirst_applyOpt_none]
        rw [hred]
        exact inv_peel _ _ _ _ _ hidP hokP
          (inv_peel _ _ _ _ _ hidD hokD
            (inv_peel _ _ _ _ _ hidT hokT h))
    · have hpf : p.all validPriority = false := by
        cases hx : p.all validPriority with
        | false => rfl
        | true => exact absurd hx hpall
      have hred : tm.edit_task i title descr p dd c =
          (OpResult.err priorityErrMsg,
           { tm with tasks :=
               (updateFirst (fun t => t.id = i)
                 (applyOpt descr (fun v t => { t with description := v }))
                 (updateFirst (fun t => t.id = i)
                   (applyOpt title (fun v t => { t with title := v }))
                   tm.tasks)) }) := by
        unfold TaskManager.edit_task
        rw [hg]
        cases title <;> cases descr <;>
          simp_all [applyOpt_some, updateFirst_applyOpt_none]
      rw [hred]
      exact inv_peel _ _ _ _ _ hidD hokD
        (inv_peel _ _ _ _ _ hidT hokT h)

theorem reachable_inv (tm : TaskManager) (h : Reachable tm) : Inv tm := by
  induction h with
  | init => exact inv_init_state
  | load tm' _ ih => exact inv_load tm' ih
  | add tm' title descr p dd _ ih => exact inv_add tm' title descr p dd ih
  | edit tm' i title descr p dd c _ ih => exact inv_edit tm' i title descr p dd c ih
  | del tm' i _ ih => exact inv_delete tm' i ih
  | toggle tm' i _ ih => exact inv_toggle tm' i ih
  | clear tm' _ ih => exact inv_clear tm'

/-! Properties of the rendering orders. -/

theorem lexLe_trans (a b c : Nat × Nat) :
    lexLe a b = true → lexLe b c = true → lexLe a c = true := by
  rcases a with ⟨a1, a2⟩
  rcases b with ⟨b1, b2⟩
  rcases c with ⟨c1, c2⟩
  simp only [lexLe, Bool.or_eq_true, Bool.and_eq_true, Nat.blt_eq,
    Nat.ble_eq, Nat.beq_eq]
  omega

theorem lexLe_total (a b : Nat × Nat) :
    (lexLe a b || lexLe b a) = true := by
  rcases a with ⟨a1, a2⟩
  rcases b with ⟨b1, b2⟩
  simp only [lexLe, Bool.or_eq_true, Bool.and_eq_true, Nat.blt_eq,
    Nat.ble_eq, Nat.beq_eq]
  omega

theorem dateLe_trans (a b c : Task) :
    dateLe a b = true → dateLe b c = true → dateLe a c = true :=
  fun h1 h2 => lexLe_trans _ _ _ h1 h2

theorem dateLe_total (a b : Task) : (dateLe a b || dateLe b a) = true :=
  lexLe_total _ _

theorem rankLe_trans (a b c : Task) :
    rankLe a b = true → rankLe b c = true → rankLe a c = true := by
  simp only [rankLe, Nat.ble_eq]
  omega

theorem rankLe_total (a b : Task) : (rankLe a b || rankLe b a) = true := by
  simp only [rankLe, Bool.or_eq_true, Nat.ble_eq]
  omega

theorem firstSortError_ne_typeError (ts : List Task)
    (hs : ∀ t ∈ ts, t.due_date.isSome = true) :
    firstSortError ts ≠ some SortError.typeError := by
  induction ts with
  | nil => intro h; exact Option.noConfusion h
  | cons t rest ih =>
    intro h
    cases hdd : t.due_date with
    | none =>
      have := hs t (List.mem_cons_self t rest)
      rw [hdd] at this
      exact Bool.noConfusion this
    | some s =>
      simp only [firstSortError, hdd] at h
      by_cases hp : (parseYmd s).isSome = true
      · rw [if_pos hp] at h
        exact ih (fun u hu => hs u (List.mem_cons_of_mem t hu)) h
      · rw [if_neg hp] at h
        exact SortError.noConfusion (Option.some.inj h)

/-! Claim theorems. -/

/-- C8: loading when the backing document is absent yields an empty
collection without error, and loading a backing document that is not valid
JSON yields an empty collection rather than raising (the source catches
`json.JSONDecodeError`, prints a warning, and falls back to the empty list;
the model is total, so no exception escapes). -/
theorem load_missing_or_malformed_yields_empty (ts : List Task) (n : Nat) :
    (TaskManager.load_tasks { tasks := ts, doc := Doc.absent, nextId := n }).tasks = [] ∧
    (TaskManager.load_tasks { tasks := ts, doc := Doc.malformed, nextId := n }).tasks = [] ∧
    (TaskManager.init Doc.absent n).tasks = [] ∧
    (TaskManager.init Doc.malformed n).tasks = [] :=
  ⟨rfl, rfl, rfl, rfl⟩

/-- C3 counterexample: the claim says a missing `title` is passed through
as-is with no default applied, like `due_date` (for which
`(Task.from_dict d fresh).due_date = d.due_date` does hold). Rendered the
same way for `title` — the deserialized title, lifted, equals the stored
entry so that an absent title stays absent — the statement is false: the
source reads `data.get("title", "")`, so a record with no title deserializes
with the empty-string default applied, at the concrete all-absent record. -/
theorem from_dict_title_default_cex :
    ¬ (∀ (d : TaskDict) (fresh : String),
        some (Task.from_dict d fresh).title = d.title) := by
  intro h
  have hc := h { id := none, title := none, description := none,
                 priority := none, due_date := none, completed := none } "u"
  simp [Task.from_dict, Task.init] at hc

/-- C3 amended: deserialization defaults a missing `description` to the empty
string, a missing `priority` to "Medium", a missing `completed` to false, and
passes a missing `due_date` through as-is; but a missing `title` also
receives the empty-string default rather than being passed through. -/
theorem from_dict_defaults (d : TaskDict) (fresh : String) :
    (Task.from_dict d fresh).description = d.description.getD "" ∧
    (Task.from_dict d fresh).priority = d.priority.getD "Medium" ∧
    (Task.from_dict d fresh).completed = d.completed.getD false ∧
    (Task.from_dict d fresh).due_date = d.due_date ∧
    (Task.from_dict d fresh).title = d.title.getD "" :=
  ⟨rfl, rfl, rfl, rfl, rfl⟩

/-- C10 counterexample: serialization round-trip fails for a task whose id is
the empty string: `__init__` runs `id if id else uuid.uuid4().hex`, the empty
string is falsy, and a fresh uuid replaces it. -/
theorem to_from_dict_cex :
    Task.from_dict (Task.to_dict emptyIdTask) (genId 0) ≠ emptyIdTask := by
  decide

/-- C10 amended: for every task whose id is nonempty (as every uuid the code
generates is), deserializing its serialized form recovers the task in all six
fields, whatever fresh uuid the supply would offer. -/
theorem to_from_dict_roundtrip (t : Task) (fresh : String) (h : t.id ≠ "") :
    Task.from_dict (Task.to_dict t) fresh = t := by
  cases t with
  | mk id title description priority due_date completed =>
    simp only [Task.from_dict, Task.to_dict, Task.init, Option.getD_some]
    simp [show id ≠ "" from h]

theorem to_from_dict_roundtrip_witness :
    sampleTask.id ≠ "" ∧
    Task.from_dict (Task.to_dict sampleTask) "u" = sampleTask :=
  ⟨by decide, to_from_dict_roundtrip sampleTask "u" (by decide)⟩

/-- C5: adding with a priority outside `VALID_PRIORITIES` fails with a
`ValueError` and leaves the manager unchanged (nothing appended, nothing
saved); adding with due date "2024-13-40" fails the same way whatever the
priority (the source validates the due date first); "2024-03-15" passes
validation. -/
theorem add_invalid_rejected :
    (∀ (tm : TaskManager) (title descr p dd : String),
      validPriority p = false →
      (tm.add_task title descr p dd).1.isErr = true ∧
      (tm.add_task title descr p dd).2 = tm) ∧
    (∀ (tm : TaskManager) (title descr p : String),
      (tm.add_task title descr p "2024-13-40").1 = OpResult.err dueDateErrMsg ∧
      (tm.add_task title descr p "2024-13-40").2 = tm) ∧
    validDueDate "2024-03-15" = true := by
  refine ⟨?_, ?_, by decide⟩
  · intro tm title descr p dd hp
    unfold TaskManager.add_task
    by_cases hd : validDueDate dd = false
    · simp [hd, OpResult.isErr]
    · simp [hd, hp, OpResult.isErr]
  · intro tm title descr p
    have hd : validDueDate "2024-13-40" = false := by decide
    simp [TaskManager.add_task, hd]

theorem add_invalid_rejected_witness :
    validPriority "Urgent" = false ∧
    (sampleManager.add_task "t" "" "Urgent" "2024-03-15").2 = sampleManager :=
  ⟨by decide,
    (add_invalid_rejected.1 sampleManager "t" "" "Urgent" "2024-03-15" (by decide)).2⟩

/-- C1, at the failing input (a single `add` on a fresh store): the add
itself succeeds and appends in memory, but `_save_tasks` opens the file with
the unknown encoding `'utf-f'`, which truncates the file and then raises
`LookupError`, silently swallowed; the backing document is left empty (not
valid JSON), so reloading the store yields 0 records instead of the 1 the
claim promises. -/
theorem add_save_reload_loses_records :
    ((TaskManager.init Doc.absent 0).add_task "Buy milk" "" "Medium" "2025-01-10").1.isOk
        = true ∧
    ((TaskManager.init Doc.absent 0).add_task "Buy milk" "" "Medium" "2025-01-10").2.tasks.length
        = 1 ∧
    ((TaskManager.init Doc.absent 0).add_task "Buy milk" "" "Medium" "2025-01-10").2.doc
        = Doc.malformed ∧
    (TaskManager.init
      ((TaskManager.init Doc.absent 0).add_task "Buy milk" "" "Medium" "2025-01-10").2.doc
      1).tasks.length = 0 := by
  decide

/-- C6: with valid inputs and the uuid supply delivering an id not already
live (what `uuid.uuid4().hex` provides with certainty in the model), `add`
returns a record with `completed = false` and the fresh id, appends it at the
end of the collection, and `get` on the returned id yields that very
record. -/
theorem add_then_get (tm : TaskManager) (title descr p dd : String)
    (hp : validPriority p = true) (hd : validDueDate dd = true)
    (hfresh : ∀ t ∈ tm.tasks, t.id ≠ genId tm.nextId) :
    ∃ task tm2, tm.add_task title descr p dd = (OpResult.ok task, tm2) ∧
      task.completed = false ∧
      task.id = genId tm.nextId ∧
      (∀ t ∈ tm.tasks, t.id ≠ task.id) ∧
      tm2.tasks = tm.tasks ++ [task] ∧
      tm2.get_task task.id = some task := by
  refine ⟨Task.init title descr p (some dd) false none (genId tm.nextId),
    { tasks := tm.tasks ++ [Task.init title descr p (some dd) false none (genId tm.nextId)],
      doc := Doc.malformed, nextId := tm.nextId + 1 }, ?_, rfl, rfl, ?_, rfl, ?_⟩
  · unfold TaskManager.add_task
    simp [hd, hp, TaskManager.save_tasks]
  · intro t ht
    exact hfresh t ht
  · unfold TaskManager.get_task
    rw [List.find?_append]
    have h1 : tm.tasks.find?
        (fun t => t.id = (Task.init title descr p (some dd) false none (genId tm.nextId)).id)
        = none := by
      refine List.find?_eq_none.mpr (fun t ht => ?_)
      simp [Task.init, hfresh t ht]
    rw [h1]
    simp [List.find?]

theorem add_then_get_witness :
    validPriority "High" = true ∧
    ∃ task tm2,
      (TaskManager.init Doc.absent 0).add_task "t" "d" "High" "2024-03-15"
        = (OpResult.ok task, tm2) ∧
      task.completed = false ∧
      task.id = genId (TaskManager.init Doc.absent 0).nextId ∧
      (∀ t ∈ (TaskManager.init Doc.absent 0).tasks, t.id ≠ task.id) ∧
      tm2.tasks = (TaskManager.init Doc.absent 0).tasks ++ [task] ∧
      tm2.get_task task.id = some task :=
  ⟨by decide,
    add_then_get (TaskManager.init Doc.absent 0) "t" "d" "High" "2024-03-15"
      (by decide) (by decide)
      (by intro t ht; exact absurd ht (List.not_mem_nil t))⟩

/-- C9: on a present id, `toggle_complete` returns true, a second call
returns true again and restores the collection exactly — in particular the
record's original `completed` value; on an absent id it returns false and
changes nothing. -/
theorem toggle_twice_restores (tm : TaskManager) (i : String) :
    (∀ t, tm.get_task i = some t →
      (tm.toggle_complete i).1 = true ∧
      ((tm.toggle_complete i).2.toggle_complete i).1 = true ∧
      ((tm.toggle_complete i).2.toggle_complete i).2.tasks = tm.tasks ∧
      ∃ t2, ((tm.toggle_complete i).2.toggle_complete i).2.get_task i = some t2 ∧
        t2.completed = t.completed) ∧
    (tm.get_task i = none → tm.toggle_complete i = (false, tm)) := by
  constructor
  · intro t ht
    have hmid : tm.toggle_complete i =
        (true, { tasks := updateFirst (fun u => u.id = i) flipCompleted tm.tasks,
                 doc := Doc.malformed, nextId := tm.nextId }) := by
      unfold TaskManager.toggle_complete
      rw [ht]
      rfl
    have hfind := find?_updateFirst (fun u : Task => u.id = i) flipCompleted
      (fun _ => rfl) tm.tasks
    have htf : tm.tasks.find? (fun u => u.id = i) = some t := ht
    have hgmid : (updateFirst (fun u : Task => u.id = i) flipCompleted tm.tasks).find?
        (fun u => u.id = i) = some (flipCompleted t) := by
      rw [hfind, htf]
      rfl
    have hfinal : ((tm.toggle_complete i).2.toggle_complete i) =
        (true, { tasks := updateFirst (fun u : Task => u.id = i) flipCompleted
                   (updateFirst (fun u : Task => u.id = i) flipCompleted tm.tasks),
                 doc := Doc.malformed, nextId := tm.nextId }) := by
      rw [hmid]
      unfold TaskManager.toggle_complete
      rw [show TaskManager.get_task
          { tasks := updateFirst (fun u : Task => u.id = i) flipCompleted tm.tasks,
            doc := Doc.malformed, nextId := tm.nextId } i = some (flipCompleted t) from hgmid]
      rfl
    have hback : updateFirst (fun u : Task => u.id = i) flipCompleted
        (updateFirst (fun u : Task => u.id = i) flipCompleted tm.tasks) = tm.tasks :=
      updateFirst_flip_flip (fun u => u.id = i) (fun _ => rfl) tm.tasks
    refine ⟨by rw [hmid], by rw [hfinal], by rw [hfinal]; exact hback, t, ?_, rfl⟩
    rw [hfinal]
    show (updateFirst (fun u : Task => u.id = i) flipCompleted
        (updateFirst (fun u : Task => u.id = i) flipCompleted tm.tasks)).find?
        (fun u => u.id = i) = some t
    rw [hback]
    exact htf
  · intro ht
    unfold TaskManager.toggle_complete
    rw [ht]

theorem toggle_twice_restores_witness :
    sampleManager.get_task "id1" = some sampleTask ∧
    (sampleManager.toggle_complete "id1").1 = true ∧
    ((sampleManager.toggle_complete "id1").2.toggle_complete "id1").1 = true ∧
    ((sampleManager.toggle_complete "id1").2.toggle_complete "id1").2.tasks
      = sampleManager.tasks :=
  ⟨by decide,
    ((toggle_twice_restores sampleManager "id1").1 sampleTask (by decide)).1,
    ((toggle_twice_restores sampleManager "id1").1 sampleTask (by decide)).2.1,
    ((toggle_twice_restores sampleManager "id1").1 sampleTask (by decide)).2.2.1⟩

/-- C2 counterexample: editing an existing task with a new title together
with an invalid priority raises the `ValueError` — but the title has already
been assigned when the validation runs (`edit_task` assigns fields in source
order, validating each of priority and due date only just before assigning
that field), so the record is left mutated, contradicting
validate-then-apply. -/
theorem edit_not_atomic_cex :
    (sampleManager.edit_task "id1" (some "X") none (some "Urgent") none none).1
      = OpResult.err priorityErrMsg ∧
    (sampleManager.edit_task "id1" (some "X") none (some "Urgent") none none).2.get_task "id1"
      = some { sampleTask with title := "X" } ∧
    ("X" : String) ≠ sampleTask.title := by
  decide

/-- C2 amended: if a supplied priority or due date is invalid, `edit_task`
raises a `ValueError` and performs no save (the backing document is
untouched), and the record's due date and completion flag are never mutated;
but the fields assigned before the failing validation are already applied:
title and description carry the supplied values, and priority keeps its old
value exactly when the priority itself was the invalid field. -/
theorem edit_invalid_aborts (tm : TaskManager) (task_id : String)
    (title descr p dd : Option String) (c : Option Bool) (orig : Task)
    (hfound : tm.get_task task_id = some orig)
    (hbad : ¬ (p.all validPriority = true ∧ dd.all validDueDate = true)) :
    (∃ msg, (tm.edit_task task_id title descr p dd c).1 = OpResult.err msg) ∧
    (tm.edit_task task_id title descr p dd c).2.doc = tm.doc ∧
    ∃ r, (tm.edit_task task_id title descr p dd c).2.get_task task_id = some r ∧
      r.id = orig.id ∧
      r.due_date = orig.due_date ∧
      r.completed = orig.completed ∧
      r.title = title.getD orig.title ∧
      r.description = descr.getD orig.description ∧
      (p.all validPriority = false → r.priority = orig.priority) := by
  have hfind : tm.tasks.find? (fun t => t.id = task_id) = some orig := hfound
  have hidT : ∀ a : Task,
      ((applyOpt title (fun v t => { t with title := v })) a).id = a.id := by
    intro a; cases title <;> rfl
  have hidD : ∀ a : Task,
      ((applyOpt descr (fun v t => { t with description := v })) a).id = a.id := by
    intro a; cases descr <;> rfl
  have hidP : ∀ a : Task,
      ((applyOpt p (fun v t => { t with priority := v })) a).id = a.id := by
    intro a; cases p <;> rfl
  by_cases hpall : p.all validPriority = true
  · have hddbad : dd.all validDueDate = false := by
      cases h : dd.all validDueDate with
      | false => rfl
      | true => exact absurd ⟨hpall, h⟩ hbad
    have hred : tm.edit_task task_id title descr p dd c =
        (OpResult.err dueDateErrMsg,
         { tm with tasks :=
             (updateFirst (fun t => t.id = task_id)
               (applyOpt p (fun v t => { t with priority := v }))
               (updateFirst (fun t => t.id = task_id)
                 (applyOpt descr (fun v t => { t with description := v }))
                 (updateFirst (fun t => t.id = task_id)
                   (applyOpt title (fun v t => { t with title := v }))
                   tm.tasks))) }) := by
      unfold TaskManager.edit_task
      rw [hfound]
      cases title <;> cases descr <;> cases p <;>
        simp_all [applyOpt_some, updateFirst_applyOpt_none]
    have g1 := get_task_update tm task_id
      (applyOpt title (fun v t => { t with title := v })) hidT orig hfind
    have g2 := get_task_update
      { tm with tasks := (updateFirst (fun t => t.id = task_id)
          (applyOpt title (fun v t => { t with title := v })) tm.tasks) }
      task_id (applyOpt descr (fun v t => { t with description := v })) hidD _ g1
    have g3 := get_task_update
      { tm with tasks :=
          (updateFirst (fun t => t.id = task_id)
            (applyOpt descr (fun v t => { t with description := v }))
            (updateFirst (fun t => t.id = task_id)
              (applyOpt title (fun v t => { t with title := v })) tm.tasks)) }
      task_id (applyOpt p (fun v t => { t with priority := v })) hidP _ g2
    rw [hred]
    refine ⟨⟨dueDateErrMsg, rfl⟩, rfl,
      applyOpt p (fun v t => { t with priority := v })
        (applyOpt descr (fun v t => { t with description := v })
          (applyOpt title (fun v t => { t with title := v }) orig)),
      g3, ?_, ?_, ?_, ?_, ?_, ?_⟩
    · cases p <;> cases descr <;> cases title <;> rfl
    · cases p <;> cases descr <;> cases title <;> rfl
    · cases p <;> cases descr <;> cases title <;> rfl
    · cases p <;> cases descr <;> cases title <;> rfl
    · cases p <;> cases descr <;> cases title <;> rfl
    · intro hpfalse
      rw [hpall] at hpfalse
      exact absurd hpfalse (by simp)
  · have hpf : p.all validPriority = false := by
      cases h : p.all validPriority with
      | false => rfl
      | true => exact absurd h hpall
    have hred : tm.edit_task task_id title descr p dd c =
        (OpResult.err priorityErrMsg,
         { tm with tasks :=
             (updateFirst (fun t => t.id = task_id)
               (applyOpt descr (fun v t => { t with description := v }))
               (updateFirst (fun t => t.id = task_id)
                 (applyOpt title (fun v t => { t with title := v }))
                 tm.tasks)) }) := by
      unfold TaskManager.edit_task
      rw [hfound]
      cases title <;> cases descr <;>
        simp_all [applyOpt_some, updateFirst_applyOpt_none]
    have g1 := get_task_update tm task_id
      (applyOpt title (fun v t => { t with title := v })) hidT orig hfind
    have g2 := get_task_update
      { tm with tasks := (updateFirst (fun t => t.id = task_id)
          (applyOpt title (fun v t => { t with title := v })) tm.tasks) }
      task_id (applyOpt descr (fun v t => { t with description := v })) hidD _ g1
    rw [hred]
    refine ⟨⟨priorityErrMsg, rfl⟩, rfl,
      applyOpt descr (fun v t => { t with description := v })
        (applyOpt title (fun v t => { t with title := v }) orig),
      g2, ?_, ?_, ?_, ?_, ?_, ?_⟩
    · cases descr <;> cases title <;> rfl
    · cases descr <;> cases title <;> rfl
    · cases descr <;> cases title <;> rfl
    · cases descr <;> cases title <;> rfl
    · cases descr <;> cases title <;> rfl
    · intro _
      cases descr <;> cases title <;> rfl

theorem edit_invalid_aborts_witness :
    sampleManager.get_task "id1" = some sampleTask ∧
    ¬ ((some "Urgent").all validPriority = true ∧
       (none : Option String).all validDueDate = true) ∧
    (sampleManager.edit_task "id1" (some "X") none (some "Urgent") none none).2.doc
      = sampleManager.doc :=
  ⟨by decide, by decide,
    (edit_invalid_aborts sampleManager "id1" (some "X") none (some "Urgent") none
      none sampleTask (by decide) (by decide)).2.1⟩

/-- C4: in every store state reachable from a fresh store by any sequence of
load, add, edit, delete, toggle and clear operations, the live ids are
pairwise distinct, every priority lies in `VALID_PRIORITIES`, and every due
date is a present, syntactically valid YYYY-MM-DD string (uuid freshness is
modelled by the injective id supply). -/
theorem reachable_state_invariants (tm : TaskManager) (h : Reachable tm) :
    (tm.tasks.map Task.id).Nodup ∧
    ∀ t ∈ tm.tasks, validPriority t.priority = true ∧
      ∃ s, t.due_date = some s ∧ validDueDate s = true := by
  obtain ⟨h1, h2, h3, h4⟩ := reachable_inv tm h
  exact ⟨h2, h3⟩

theorem reachable_state_invariants_witness :
    ((((TaskManager.init Doc.absent 0).add_task "Buy milk" "" "Medium"
        "2025-01-10").2.tasks.map Task.id).Nodup ∧
    ∀ t ∈ ((TaskManager.init Doc.absent 0).add_task "Buy milk" "" "Medium"
        "2025-01-10").2.tasks, validPriority t.priority = true ∧
      ∃ s, t.due_date = some s ∧ validDueDate s = true) :=
  reachable_state_invariants _
    (Reachable.add (TaskManager.init Doc.absent 0) "Buy milk" "" "Medium"
      "2025-01-10" Reachable.init)

/-- C7: when all due dates parse, the rendered order is a permutation of the
tasks sorted by (ascending due date, priority rank); when some date fails to
parse, the whole sort falls back to a permutation sorted by priority rank
alone; and on the spec's concrete two-task scenario the rendered titles are
["File taxes", "Buy milk"]. A `None` due date is excluded by hypothesis: it
would raise `TypeError`, which the source does not catch. -/
theorem render_order (ts : List Task)
    (hs : ∀ t ∈ ts, t.due_date.isSome = true) :
    (firstSortError ts = none →
      ∃ l, refreshOrder ts = some l ∧ l.Perm ts ∧
        l.Pairwise (fun a b => dateLe a b = true)) ∧
    (∀ e, firstSortError ts = some e →
      e = SortError.valueError ∧
      ∃ l, refreshOrder ts = some l ∧ l.Perm ts ∧
        l.Pairwise (fun a b => rankLe a b = true)) ∧
    (∃ l, refreshOrder [buyMilk, fileTaxes] = some l ∧
      l.map Task.title = ["File taxes", "Buy milk"]) := by
  refine ⟨?_, ?_, ?_⟩
  · intro h0
    refine ⟨ts.mergeSort dateLe, ?_, List.mergeSort_perm ts dateLe, ?_⟩
    · unfold refreshOrder
      rw [h0]
    · exact List.sorted_mergeSort dateLe_trans dateLe_total ts
  · intro e he
    have hev : e = SortError.valueError := by
      cases e with
      | typeError => exact absurd he (firstSortError_ne_typeError ts hs)
      | valueError => rfl
    subst hev
    refine ⟨rfl, ts.mergeSort rankLe, ?_, List.mergeSort_perm ts rankLe, ?_⟩
    · unfold refreshOrder
      rw [he]
    · exact List.sorted_mergeSort rankLe_trans rankLe_total ts
  · have hfse : firstSortError [buyMilk, fileTaxes] = none := by decide
    have h12 : dateLe buyMilk fileTaxes = false := by decide
    have hm : List.mergeSort [buyMilk, fileTaxes] dateLe = [fileTaxes, buyMilk] := by
      rw [List.mergeSort]
      simp [List.splitInTwo, List.splitAt, List.splitAt.go, List.merge, h12]
    refine ⟨[fileTaxes, buyMilk], ?_, rfl⟩
    unfold refreshOrder
    rw [hfse, hm]

theorem render_order_witness :
    ∃ l, refreshOrder [buyMilk, fileTaxes] = some l ∧
      l.Perm [buyMilk, fileTaxes] ∧
      l.Pairwise (fun a b => dateLe a b = true) :=
  (render_order [buyMilk, fileTaxes] (by decide)).1 (by decide)

end Jules
